import Mathlib

/-!
Verification of the zkbench analysis scripts.

This file gives a shallow embedding of the two scripts of the repository:

* `plot_bench_metrics.py` (Plotter A): reads benchmark summary rows, keeps
  only READ/WRITE rows, groups them by (bench_type, group_start_time),
  averages the latency metrics and sums the throughput per group, and writes
  one image per operation type.
* `visualize_gradual_overload.py` (Plotter B): reads a metrics file and a
  phase-transitions file, aligns them to the earliest metrics timestamp,
  draws phase markers and shaded phase intervals, writes one image and prints
  a textual summary.

Modelling conventions: parsed timestamps and all numeric measurements are
modelled as exact rationals (the claims are stated under exact arithmetic);
the charting calls are modelled by the data series, marker and shading lists
they receive; writing a file and printing are modelled by the list of output
paths and printed lines the run produces.  The timestamp-normalization code
of Plotter A is pure string manipulation and is embedded over lists of
characters.
-/

namespace ZkBench

/-! ### Plotter A: plot_bench_metrics.py -/

/-- One input row of the summary file, with the group-start timestamp already
parsed (modelled as a rational number of epoch seconds; subtraction of two
parsed timestamps in seconds is subtraction in `ℚ`).  The four measurements
are the raw field values of the row. -/
structure Row where
  bench_type : String
  group_start_time : ℚ
  average_latency : ℚ
  max_latency : ℚ
  p99_latency : ℚ
  throughput : ℚ
  deriving DecidableEq, Repr

/-- The accepted operation types: the script skips every row whose
bench_type is not in this list. -/
def acceptedTypes : List String := ["READ", "WRITE"]

/-- The per-(type, timestamp) bucket of the `data_by_type` dictionary: four
lists of samples, appended to in row order. -/
structure Group where
  avg_lat : List ℚ
  max_lat : List ℚ
  p99_lat : List ℚ
  throughput : List ℚ
  deriving DecidableEq, Repr

/-- The initial bucket created by the defaultdict default factory. -/
def emptyGroup : Group := ⟨[], [], [], []⟩

/-- Appending one row to a bucket: the latencies are divided by 1e6
(nanoseconds to milliseconds) before being appended, the throughput is
appended as is. -/
def addRow (g : Group) (r : Row) : Group :=
  { avg_lat := g.avg_lat ++ [r.average_latency / 1000000],
    max_lat := g.max_lat ++ [r.max_latency / 1000000],
    p99_lat := g.p99_lat ++ [r.p99_latency / 1000000],
    throughput := g.throughput ++ [r.throughput] }

/-- The state of the nested defaultdict `data_by_type`: the bucket for every
(bench_type, timestamp) pair (defaulting to the empty bucket, which is the
defaultdict semantics), together with the key lists of the outer dictionary
and of each inner dictionary, in insertion order. -/
structure DataState where
  groups : String → ℚ → Group
  typeKeys : List String
  tsKeys : String → List ℚ

/-- The empty defaultdict. -/
def emptyState : DataState :=
  { groups := fun _ _ => emptyGroup, typeKeys := [], tsKeys := fun _ => [] }

/-- One iteration of the reading loop: skip the row unless its bench_type is
accepted; otherwise append its values to the bucket of its
(bench_type, timestamp) key, creating dictionary keys on first access. -/
def step (st : DataState) (r : Row) : DataState :=
  if r.bench_type ∈ acceptedTypes then
    { groups := fun b t =>
        if b = r.bench_type ∧ t = r.group_start_time then addRow (st.groups b t) r
        else st.groups b t,
      typeKeys :=
        if r.bench_type ∈ st.typeKeys then st.typeKeys
        else st.typeKeys ++ [r.bench_type],
      tsKeys := fun b =>
        if b = r.bench_type then
          if r.group_start_time ∈ st.tsKeys b then st.tsKeys b
          else st.tsKeys b ++ [r.group_start_time]
        else st.tsKeys b }
  else st

/-- Reading the whole file: fold the loop body over the rows. -/
def processRows (rows : List Row) : DataState := rows.foldl step emptyState

/-- The rows that end up in the bucket of one (bench_type, timestamp) key
(in file order). -/
def groupRows (rows : List Row) (btype : String) (ts : ℚ) : List Row :=
  rows.filter (fun r => r.bench_type = btype ∧ r.group_start_time = ts)

/-- One aggregated point of the per-type series. -/
structure AggPoint where
  ts : ℚ
  avg_lat : ℚ
  max_lat : ℚ
  p99_lat : ℚ
  throughput : ℚ
  deriving DecidableEq, Repr

/-- The aggregation loop for one bench_type: sort the timestamps of its inner
dictionary ascending, and for each timestamp take sum/len of each latency
list and the sum of the throughput list. -/
def aggregateType (st : DataState) (btype : String) : List AggPoint :=
  ((st.tsKeys btype).insertionSort (· ≤ ·)).map (fun ts =>
    { ts := ts,
      avg_lat := (st.groups btype ts).avg_lat.sum / ((st.groups btype ts).avg_lat.length : ℚ),
      max_lat := (st.groups btype ts).max_lat.sum / ((st.groups btype ts).max_lat.length : ℚ),
      p99_lat := (st.groups btype ts).p99_lat.sum / ((st.groups btype ts).p99_lat.length : ℚ),
      throughput := (st.groups btype ts).throughput.sum })

/-- The relative time axis for one bench_type: each timestamp of the
aggregated series minus the first one (the code takes timestamps[0] of the
sorted series); the empty series yields no axis (the continue branch). -/
def relTimes (st : DataState) (btype : String) : List ℚ :=
  match (aggregateType st btype).map (fun p => p.ts) with
  | [] => []
  | t0 :: rest => (t0 :: rest).map (fun t => t - t0)

/-- Python str.replace with fuel: at each position, if the (nonempty) pattern
is a prefix of the remaining input, emit the replacement and continue after
the pattern, else keep the character; this is the left-to-right
non-overlapping replacement of every occurrence. -/
def pyReplaceAux (pat rep : List Char) : Nat → List Char → List Char
  | 0, s => s
  | _ + 1, [] => []
  | fuel + 1, a :: rest =>
    if pat ≠ [] ∧ pat.isPrefixOf (a :: rest) then
      rep ++ pyReplaceAux pat rep fuel ((a :: rest).drop pat.length)
    else a :: pyReplaceAux pat rep fuel rest

/-- Python str.replace on strings. -/
def pyReplace (s pat rep : String) : String :=
  String.mk (pyReplaceAux pat.toList rep.toList s.toList.length s.toList)

/-- The observable outcome of one run of Plotter A: the exit code, the lines
printed, and the image paths written. -/
structure RunAResult where
  exitCode : Nat
  printed : List String
  images : List String
  deriving DecidableEq, Repr

/-- The whole main of Plotter A after parsing: read the rows into the
dictionary; if it is empty print the no-data message and exit 0; otherwise,
for every bench_type in sorted order, aggregate, skip the type if its
timestamp list is empty (the continue branch), and otherwise write the image
whose path is the input path with every occurrence of the substring
".dat" replaced by an underscore, the bench_type, and "_metrics.png", and
print a Saved line for it. -/
def runA (csv_file : String) (rows : List Row) : RunAResult :=
  let st := processRows rows
  if st.typeKeys = [] then
    { exitCode := 0, printed := ["No READ/WRITE test data found"], images := [] }
  else
    let outs := (st.typeKeys.insertionSort (· ≤ ·)).filterMap (fun btype =>
      if st.tsKeys btype = [] then none
      else some (pyReplace csv_file ".dat" ("_" ++ btype ++ "_metrics.png")))
    { exitCode := 0, printed := outs.map (fun o => "Saved: " ++ o), images := outs }

/-! ### Plotter A: timestamp normalization (lines 34-39) -/

/-- Python str.replace of the one-character pattern "Z" by "+00:00". -/
def replaceZ : List Char → List Char
  | [] => []
  | c :: rest =>
    if c = 'Z' then '+' :: '0' :: '0' :: ':' :: '0' :: '0' :: replaceZ rest
    else c :: replaceZ rest

/-- Python str.split on a one-character separator: every occurrence of the
separator starts a new part, so "a.b" gives ["a", "b"] and "a..b" gives
["a", "", "b"]. -/
def splitOnChar (c : Char) : List Char → List (List Char)
  | [] => [[]]
  | a :: rest =>
    if a = c then [] :: splitOnChar c rest
    else
      match splitOnChar c rest with
      | [] => [[a]]
      | h :: t => (a :: h) :: t

/-- microsec[:6].ljust(6, "0"): truncate to at most 6 characters, then pad
on the right with zeros to exactly 6. -/
def pad6 (m : List Char) : List Char :=
  m.take 6 ++ List.replicate (6 - (m.take 6).length) '0'

/-- Python two-variable unpacking of a split result, as in
base, rest = s.split(sep): succeeds exactly when the split has two parts
(a ValueError is modelled by none). -/
def splitPair (c : Char) (l : List Char) : Option (List Char × List Char) :=
  match splitOnChar c l with
  | [x, y] => some (x, y)
  | _ => none

/-- The timestamp-normalization block: replace "Z" by "+00:00"; if the result
contains both a dot and a plus sign, split on the dot and then split the tail
on the plus sign (each split must give exactly two parts or the unpacking
raises, modelled by none) and rebuild the string with the fractional field
truncated/padded to 6 characters; otherwise pass the string through
unchanged. -/
def normalize_ts (s : List Char) : Option (List Char) :=
  let ts := replaceZ s
  if ('.' ∈ ts) ∧ ('+' ∈ ts) then
    (splitPair '.' ts).bind (fun p =>
      (splitPair '+' p.2).map (fun q => p.1 ++ '.' :: (pad6 q.1 ++ '+' :: q.2)))
  else some ts

/-- The width of the fractional-seconds field of an ISO-like timestamp
string: the characters after the single dot and before the offset sign (or
none if the string does not have exactly one dot). -/
def fracWidth (s : List Char) : Option Nat :=
  match splitOnChar '.' s with
  | [_, rest] => some ((rest.takeWhile (fun c => c ≠ '+' ∧ c ≠ '-')).length)
  | _ => none

/-! ### Plotter B: visualize_gradual_overload.py -/

/-- One row of the metrics file.  The p99 and phase fields are only consulted
when the corresponding column exists in the frame (see MetricsFrame). -/
structure MetricRowB where
  timestamp : ℚ
  throughput : ℚ
  avg_latency_ms : ℚ
  p99_latency_ms : ℚ
  workload : ℚ
  phase : String
  deriving DecidableEq, Repr

/-- The metrics data frame: its rows, and whether the optional p99 and phase
columns are present. -/
structure MetricsFrame where
  rows : List MetricRowB
  hasP99 : Bool
  hasPhase : Bool
  deriving DecidableEq, Repr

/-- One row of the phase-transitions file. -/
structure PhaseRow where
  timestamp : ℚ
  phase : String
  deriving DecidableEq, Repr

/-- Minimum of a list of rationals (0 only for the empty list, which is
outside the valid-input scope of the claims). -/
def minQ : List ℚ → ℚ
  | [] => 0
  | [a] => a
  | a :: b :: rest => min a (minQ (b :: rest))

/-- Maximum of a list of rationals (0 only for the empty list). -/
def maxQ : List ℚ → ℚ
  | [] => 0
  | [a] => a
  | a :: b :: rest => max a (maxQ (b :: rest))

/-- start_time: the earliest timestamp of the metrics file. -/
def startTimeB (m : MetricsFrame) : ℚ := minQ (m.rows.map (fun r => r.timestamp))

/-- time_seconds: every metrics timestamp minus start_time, in row order. -/
def timeSecondsB (m : MetricsFrame) : List ℚ :=
  m.rows.map (fun r => r.timestamp - startTimeB m)

/-- The fixed phase-name-to-color mapping of the script. -/
def phase_colors : List (String × String) :=
  [("INIT", "#90EE90"), ("WARMUP", "#FFD700"), ("LOAD_INCREASE", "#FFA500"),
   ("FAILURE", "#FF6347"), ("MITIGATION", "#87CEEB"), ("RECOVERED", "#98FB98"),
   ("STABLE", "#32CD32"), ("PARTIAL_RECOVERY", "#F0E68C")]

/-- phase_colors.get(name, "#FFFFFF"). -/
def colorFor (n : String) : String := (phase_colors.lookup n).getD "#FFFFFF"

/-- Modelled from the spec: the fixed-point decimal rendering performed by the
format specifiers of the printing facility (".1f", ".2f"), which is not part
of the repository.  Rounds to the nearest multiple of 10^-prec (the claims
never exercise a tie) and renders with exactly prec digits after the dot. -/
def fmtFixed (prec : Nat) (q : ℚ) : String :=
  let n : ℤ := round (q * (10 : ℚ) ^ prec)
  let sgn := if n < 0 then "-" else ""
  let m := n.natAbs
  let ip := m / 10 ^ prec
  let fp := m % 10 ^ prec
  if prec = 0 then sgn ++ toString ip
  else
    sgn ++ toString ip ++ "." ++
      (String.mk (List.replicate (prec - (toString fp).length) '0') ++ toString fp)

/-- The observable outcome of one run of Plotter B: the output image path,
whether the image was written, the vertical phase markers (relative time and
label, drawn on all three subplots), the shaded intervals (start, end, color,
drawn on all three subplots), and the printed lines. -/
structure VisResult where
  outPath : String
  imageWritten : Bool
  markers : List (ℚ × String)
  shaded : List (ℚ × ℚ × String)
  printed : List String
  deriving DecidableEq, Repr

/-- The main of Plotter B after parsing the two files: compute start_time and
time_seconds; one marker per phase row at its relative time; one shaded
interval per consecutive pair of phase rows, colored by the earlier phase,
plus (when the phase table is nonempty) one interval from the last phase row
to the maximum relative metrics time; the image is always written; the
printed summary reports the total duration (max time_seconds, one decimal),
the peak throughput and the maximum average latency (two decimals), and a
failure line when the metrics frame has a phase column with a FAILURE row.
The numeric rendering of the failure workload is abstracted by toString. -/
def runB (pfx : String) (metrics : MetricsFrame) (phases : List PhaseRow) : VisResult :=
  let start_time := startTimeB metrics
  let time_seconds := timeSecondsB metrics
  let markers := phases.map (fun p => (p.timestamp - start_time, p.phase))
  let spans := (phases.zip phases.tail).map (fun pq =>
    (pq.1.timestamp - start_time, pq.2.timestamp - start_time, colorFor pq.1.phase))
  let lastSpan :=
    match phases.getLast? with
    | none => []
    | some lp => [(lp.timestamp - start_time, maxQ time_seconds, colorFor lp.phase)]
  let failures :=
    if metrics.hasPhase then metrics.rows.filter (fun r => r.phase = "FAILURE") else []
  let out_png := pfx ++ "visualization.png"
  { outPath := out_png,
    imageWritten := true,
    markers := markers,
    shaded := spans ++ lastSpan,
    printed :=
      ["Visualization written to " ++ out_png,
       "\n=== Test Summary ===",
       "Total test duration: " ++ fmtFixed 1 (maxQ time_seconds) ++ " seconds",
       "Peak throughput: " ++ fmtFixed 2 (maxQ (metrics.rows.map (fun r => r.throughput)))
         ++ " ops/sec",
       "Maximum latency: " ++ fmtFixed 2 (maxQ (metrics.rows.map (fun r => r.avg_latency_ms)))
         ++ " ms"]
      ++ (match failures with
          | [] => []
          | f :: _ => ["Failure detected at workload: " ++ toString f.workload ++ " requests"]) }

/-! ### Concrete example inputs (used by the witnesses) -/

/-- The distinct accepted operation types present among the rows of a file. -/
def distinctAccepted (rows : List Row) : Finset String :=
  ((rows.filter (fun r => r.bench_type ∈ acceptedTypes)).map (fun r => r.bench_type)).toFinset

/-- First example row of the spec: READ at .123 seconds, avg=10e6 ns,
max=20e6 ns, p99=15e6 ns, throughput=100. -/
def exRow1 : Row :=
  { bench_type := "READ", group_start_time := 123 / 1000, average_latency := 10000000,
    max_latency := 20000000, p99_latency := 15000000, throughput := 100 }

/-- Second example row of the spec: same type and timestamp, avg=20e6 ns,
throughput=50. -/
def exRow2 : Row :=
  { bench_type := "READ", group_start_time := 123 / 1000, average_latency := 20000000,
    max_latency := 20000000, p99_latency := 15000000, throughput := 50 }

/-- A WRITE row at a distinct timestamp. -/
def exWriteRow : Row :=
  { bench_type := "WRITE", group_start_time := 5, average_latency := 1000000,
    max_latency := 2000000, p99_latency := 1500000, throughput := 10 }

/-- A row of an excluded operation type. -/
def exOtherRow : Row :=
  { bench_type := "SETUP", group_start_time := 7, average_latency := 1,
    max_latency := 2, p99_latency := 3, throughput := 4 }

/-- An example metrics frame for Plotter B spanning 60 seconds. -/
def exMetrics : MetricsFrame :=
  { rows :=
      [{ timestamp := 100, throughput := 50, avg_latency_ms := 5, p99_latency_ms := 9,
         workload := 200, phase := "WARMUP" },
       { timestamp := 160, throughput := 80, avg_latency_ms := 7, p99_latency_ms := 12,
         workload := 400, phase := "STABLE" }],
    hasP99 := true, hasPhase := true }

/-! ### Invariants of the Plotter A reading loop -/

lemma step_not_accepted (st : DataState) (r : Row) (h : r.bench_type ∉ acceptedTypes) :
    step st r = st := by
  simp [step, h]

lemma groups_foldl (rows : List Row) (st : DataState) (b : String) (t : ℚ)
    (hb : b ∈ acceptedTypes) :
    (List.foldl step st rows).groups b t =
      List.foldl addRow (st.groups b t)
        (rows.filter (fun r => r.bench_type = b ∧ r.group_start_time = t)) := by
  induction rows generalizing st with
  | nil => rfl
  | cons r rest ih =>
    rw [List.foldl_cons, List.filter_cons]
    by_cases hm : r.bench_type = b ∧ r.group_start_time = t
    · have hacc : r.bench_type ∈ acceptedTypes := by rw [hm.1]; exact hb
      have hg : (step st r).groups b t = addRow (st.groups b t) r := by
        unfold step
        rw [if_pos hacc]
        show (if b = r.bench_type ∧ t = r.group_start_time
              then addRow (st.groups b t) r else st.groups b t) = addRow (st.groups b t) r
        rw [if_pos ⟨hm.1.symm, hm.2.symm⟩]
      rw [ih (step st r), hg]
      simp [hm]
    · have hg : (step st r).groups b t = st.groups b t := by
        by_cases hacc : r.bench_type ∈ acceptedTypes
        · have hne : ¬ (b = r.bench_type ∧ t = r.group_start_time) := by
            intro hc
            exact hm ⟨hc.1.symm, hc.2.symm⟩
          unfold step
          rw [if_pos hacc]
          show (if b = r.bench_type ∧ t = r.group_start_time
                then addRow (st.groups b t) r else st.groups b t) = st.groups b t
          rw [if_neg hne]
        · rw [step_not_accepted st r hacc]
      rw [ih (step st r), hg]
      simp [hm]

lemma foldl_addRow (g : Group) (l : List Row) :
    List.foldl addRow g l =
      { avg_lat := g.avg_lat ++ l.map (fun r => r.average_latency / 1000000),
        max_lat := g.max_lat ++ l.map (fun r => r.max_latency / 1000000),
        p99_lat := g.p99_lat ++ l.map (fun r => r.p99_latency / 1000000),
        throughput := g.throughput ++ l.map (fun r => r.throughput) } := by
  induction l generalizing g with
  | nil => cases g; simp
  | cons r rest ih => rw [List.foldl_cons, ih]; simp [addRow]

lemma typeKeys_foldl_mem (rows : List Row) (st : DataState) (b : String) :
    b ∈ (List.foldl step st rows).typeKeys ↔
      b ∈ st.typeKeys ∨ ∃ r ∈ rows, r.bench_type ∈ acceptedTypes ∧ r.bench_type = b := by
  induction rows generalizing st with
  | nil => simp
  | cons r rest ih =>
    rw [List.foldl_cons, ih]
    by_cases hacc : r.bench_type ∈ acceptedTypes
    · have hg : (step st r).typeKeys =
          if r.bench_type ∈ st.typeKeys then st.typeKeys else st.typeKeys ++ [r.bench_type] := by
        unfold step
        rw [if_pos hacc]
      rw [hg]
      by_cases hk : r.bench_type ∈ st.typeKeys
      · rw [if_pos hk]
        simp only [List.mem_cons]
        constructor
        · rintro (h | h)
          · exact Or.inl h
          · exact Or.inr (h.imp fun r' hh => ⟨Or.inr hh.1, hh.2⟩)
        · rintro (h | ⟨r', (rfl | hr'), hh⟩)
          · exact Or.inl h
          · exact Or.inl (hh.2 ▸ hk)
          · exact Or.inr ⟨r', hr', hh⟩
      · rw [if_neg hk]
        simp only [List.mem_append, List.mem_cons, List.not_mem_nil, or_false]
        constructor
        · rintro ((h | h) | h)
          · exact Or.inl h
          · exact Or.inr ⟨r, Or.inl rfl, hacc, h.symm⟩
          · exact Or.inr (h.imp fun r' hh => ⟨Or.inr hh.1, hh.2⟩)
        · rintro (h | ⟨r', (rfl | hr'), hh⟩)
          · exact Or.inl (Or.inl h)
          · exact Or.inl (Or.inr hh.2.symm)
          · exact Or.inr ⟨r', hr', hh⟩
    · rw [step_not_accepted st r hacc]
      simp only [List.mem_cons]
      constructor
      · rintro (h | h)
        · exact Or.inl h
        · exact Or.inr (h.imp fun r' hh => ⟨Or.inr hh.1, hh.2⟩)
      · rintro (h | ⟨r', (rfl | hr'), hh⟩)
        · exact Or.inl h
        · exact absurd hh.1 hacc
        · exact Or.inr ⟨r', hr', hh⟩

lemma tsKeys_foldl_mem (rows : List Row) (st : DataState) (b : String) (t : ℚ) :
    t ∈ (List.foldl step st rows).tsKeys b ↔
      t ∈ st.tsKeys b ∨
        ∃ r ∈ rows, r.bench_type ∈ acceptedTypes ∧ r.bench_type = b ∧
          r.group_start_time = t := by
  induction rows generalizing st with
  | nil => simp
  | cons r rest ih =>
    rw [List.foldl_cons, ih]
    by_cases hacc : r.bench_type ∈ acceptedTypes
    · have hg : (step st r).tsKeys b =
          if b = r.bench_type then
            if r.group_start_time ∈ st.tsKeys b then st.tsKeys b
            else st.tsKeys b ++ [r.group_start_time]
          else st.tsKeys b := by
        unfold step
        rw [if_pos hacc]
      rw [hg]
      by_cases hbt : r.bench_type = b
      · rw [if_pos hbt.symm]
        by_cases hk : r.group_start_time ∈ st.tsKeys b
        · rw [if_pos hk]
          simp only [List.mem_cons]
          constructor
          · rintro (h | h)
            · exact Or.inl h
            · exact Or.inr (h.imp fun r' hh => ⟨Or.inr hh.1, hh.2⟩)
          · rintro (h | ⟨r', (rfl | hr'), hh⟩)
            · exact Or.inl h
            · exact Or.inl (hh.2.2 ▸ hk)
            · exact Or.inr ⟨r', hr', hh⟩
        · rw [if_neg hk]
          simp only [List.mem_append, List.mem_cons, List.not_mem_nil, or_false]
          constructor
          · rintro ((h | h) | h)
            · exact Or.inl h
            · exact Or.inr ⟨r, Or.inl rfl, hacc, hbt, h.symm⟩
            · exact Or.inr (h.imp fun r' hh => ⟨Or.inr hh.1, hh.2⟩)
          · rintro (h | ⟨r', (rfl | hr'), hh⟩)
            · exact Or.inl (Or.inl h)
            · exact Or.inl (Or.inr hh.2.2.symm)
            · exact Or.inr ⟨r', hr', hh⟩
      · rw [if_neg (fun hc => hbt hc.symm)]
        simp only [List.mem_cons]
        constructor
        · rintro (h | h)
          · exact Or.inl h
          · exact Or.inr (h.imp fun r' hh => ⟨Or.inr hh.1, hh.2⟩)
        · rintro (h | ⟨r', (rfl | hr'), hh⟩)
          · exact Or.inl h
          · exact absurd hh.2.1 hbt
          · exact Or.inr ⟨r', hr', hh⟩
    · rw [step_not_accepted st r hacc]
      simp only [List.mem_cons]
      constructor
      · rintro (h | h)
        · exact Or.inl h
        · exact Or.inr (h.imp fun r' hh => ⟨Or.inr hh.1, hh.2⟩)
      · rintro (h | ⟨r', (rfl | hr'), hh⟩)
        · exact Or.inl h
        · exact absurd hh.1 hacc
        · exact Or.inr ⟨r', hr', hh⟩

lemma typeKeys_foldl_nodup (rows : List Row) (st : DataState) (h : st.typeKeys.Nodup) :
    (List.foldl step st rows).typeKeys.Nodup := by
  induction rows generalizing st with
  | nil => exact h
  | cons r rest ih =>
    rw [List.foldl_cons]
    apply ih
    by_cases hacc : r.bench_type ∈ acceptedTypes
    · have hg : (step st r).typeKeys =
          if r.bench_type ∈ st.typeKeys then st.typeKeys else st.typeKeys ++ [r.bench_type] := by
        unfold step
        rw [if_pos hacc]
      rw [hg]
      by_cases hk : r.bench_type ∈ st.typeKeys
      · rw [if_pos hk]; exact h
      · rw [if_neg hk]
        rw [List.nodup_append]
        exact ⟨h, List.nodup_singleton _, by simpa using hk⟩
    · rw [step_not_accepted st r hacc]; exact h

lemma tsKeys_foldl_nodup (rows : List Row) (st : DataState) (b : String)
    (h : (st.tsKeys b).Nodup) : ((List.foldl step st rows).tsKeys b).Nodup := by
  induction rows generalizing st with
  | nil => exact h
  | cons r rest ih =>
    rw [List.foldl_cons]
    apply ih
    by_cases hacc : r.bench_type ∈ acceptedTypes
    · have hg : (step st r).tsKeys b =
          if b = r.bench_type then
            if r.group_start_time ∈ st.tsKeys b then st.tsKeys b
            else st.tsKeys b ++ [r.group_start_time]
          else st.tsKeys b := by
        unfold step
        rw [if_pos hacc]
      rw [hg]
      by_cases hbt : b = r.bench_type
      · rw [if_pos hbt]
        by_cases hk : r.group_start_time ∈ st.tsKeys b
        · rw [if_pos hk]; exact h
        · rw [if_neg hk]
          rw [List.nodup_append]
          exact ⟨h, List.nodup_singleton _, by simpa using hk⟩
      · rw [if_neg hbt]; exact h
    · rw [step_not_accepted st r hacc]; exact h

/-- Membership in the outer key list of the dictionary built from a file:
exactly the accepted operation types present among the rows. -/
lemma mem_typeKeys (rows : List Row) (b : String) :
    b ∈ (processRows rows).typeKeys ↔
      ∃ r ∈ rows, r.bench_type ∈ acceptedTypes ∧ r.bench_type = b := by
  have h := typeKeys_foldl_mem rows emptyState b
  simpa [processRows, emptyState] using h

/-- Membership in the timestamp key list for one bench_type: exactly the
timestamps of accepted rows of that type. -/
lemma mem_tsKeys (rows : List Row) (b : String) (t : ℚ) :
    t ∈ (processRows rows).tsKeys b ↔
      ∃ r ∈ rows, r.bench_type ∈ acceptedTypes ∧ r.bench_type = b ∧
        r.group_start_time = t := by
  have h := tsKeys_foldl_mem rows emptyState b t
  simpa [processRows, emptyState] using h

lemma typeKeys_nodup (rows : List Row) : (processRows rows).typeKeys.Nodup :=
  typeKeys_foldl_nodup rows emptyState (by simp [emptyState])

lemma tsKeys_nodup (rows : List Row) (b : String) : ((processRows rows).tsKeys b).Nodup :=
  tsKeys_foldl_nodup rows emptyState b (by simp [emptyState])

/-- The bucket of an accepted (bench_type, timestamp) key after reading the
file: the four metric lists are exactly the per-field values of the matching
rows, in file order, latencies divided by 1e6. -/
lemma groups_processRows (rows : List Row) (b : String) (t : ℚ) (hb : b ∈ acceptedTypes) :
    (processRows rows).groups b t =
      { avg_lat := (groupRows rows b t).map (fun r => r.average_latency / 1000000),
        max_lat := (groupRows rows b t).map (fun r => r.max_latency / 1000000),
        p99_lat := (groupRows rows b t).map (fun r => r.p99_latency / 1000000),
        throughput := (groupRows rows b t).map (fun r => r.throughput) } := by
  rw [processRows, groups_foldl rows emptyState b t hb]
  have he : emptyState.groups b t = emptyGroup := rfl
  rw [he, foldl_addRow]
  simp [emptyGroup, groupRows]

/-- A bench_type outside the accepted set never acquires timestamp keys. -/
lemma tsKeys_eq_nil_of_not_accepted (rows : List Row) (b : String)
    (hb : b ∉ acceptedTypes) : (processRows rows).tsKeys b = [] := by
  rw [List.eq_nil_iff_forall_not_mem]
  intro t ht
  rcases (mem_tsKeys rows b t).1 ht with ⟨r, _, hacc, hbt, _⟩
  exact hb (hbt ▸ hacc)

/-- A bench_type key of the outer dictionary always has at least one
timestamp key in its inner dictionary. -/
lemma tsKeys_ne_nil_of_mem_typeKeys (rows : List Row) (b : String)
    (hb : b ∈ (processRows rows).typeKeys) : (processRows rows).tsKeys b ≠ [] := by
  rcases (mem_typeKeys rows b).1 hb with ⟨r, hr, hacc, hbt⟩
  intro hnil
  have : r.group_start_time ∈ (processRows rows).tsKeys b :=
    (mem_tsKeys rows b r.group_start_time).2 ⟨r, hr, hacc, hbt, rfl⟩
  rw [hnil] at this
  exact List.not_mem_nil _ this

/-- The timestamps of the aggregated series of one bench_type are its sorted
timestamp keys. -/
lemma aggregateType_map_ts (st : DataState) (b : String) :
    (aggregateType st b).map (fun p => p.ts) = (st.tsKeys b).insertionSort (· ≤ ·) := by
  rw [aggregateType, List.map_map]
  simp [Function.comp_def]

/-! ### Claim theorems -/

/-- C1: for every pair of Plotter A input rows with the same accepted
operation type and the same parsed group-start timestamp, the aggregated
point of that (type, timestamp) group has each latency metric equal to the
arithmetic mean of the values of the rows of the group (after the
ns-to-ms division by 1,000,000) and throughput equal to the sum of
the throughput values of the rows of the group. -/
theorem C1_group_mean_sum (rows : List Row) (r1 r2 : Row)
    (h1 : r1 ∈ rows) (h2 : r2 ∈ rows)
    (hacc : r1.bench_type ∈ acceptedTypes)
    (hty : r2.bench_type = r1.bench_type)
    (hts : r2.group_start_time = r1.group_start_time) :
    ∃ p ∈ aggregateType (processRows rows) r1.bench_type,
      p.ts = r1.group_start_time ∧
      p.avg_lat =
        ((groupRows rows r1.bench_type r1.group_start_time).map
            (fun r => r.average_latency / 1000000)).sum /
          ((groupRows rows r1.bench_type r1.group_start_time).length : ℚ) ∧
      p.max_lat =
        ((groupRows rows r1.bench_type r1.group_start_time).map
            (fun r => r.max_latency / 1000000)).sum /
          ((groupRows rows r1.bench_type r1.group_start_time).length : ℚ) ∧
      p.p99_lat =
        ((groupRows rows r1.bench_type r1.group_start_time).map
            (fun r => r.p99_latency / 1000000)).sum /
          ((groupRows rows r1.bench_type r1.group_start_time).length : ℚ) ∧
      p.throughput =
        ((groupRows rows r1.bench_type r1.group_start_time).map
            (fun r => r.throughput)).sum := by
  have ht : r1.group_start_time ∈ (processRows rows).tsKeys r1.bench_type :=
    (mem_tsKeys rows r1.bench_type r1.group_start_time).2 ⟨r1, h1, hacc, rfl, rfl⟩
  have hmem : r1.group_start_time ∈
      ((processRows rows).tsKeys r1.bench_type).insertionSort (· ≤ ·) :=
    (List.perm_insertionSort _ _).mem_iff.2 ht
  refine ⟨_, List.mem_map_of_mem _ hmem, rfl, ?_, ?_, ?_, ?_⟩ <;>
    rw [groups_processRows rows _ _ hacc] <;>
    simp [List.length_map]

/-- C5: within one operation type of the aggregated output of Plotter A,
the relative time-seconds sequence is non-decreasing, and its first element
is 0. -/
theorem C5_relative_times (rows : List Row) (btype : String)
    (h : relTimes (processRows rows) btype ≠ []) :
    List.Sorted (· ≤ ·) (relTimes (processRows rows) btype) ∧
    (relTimes (processRows rows) btype).head h = 0 := by
  have hsor : List.Sorted (· ≤ ·)
      ((aggregateType (processRows rows) btype).map (fun p => p.ts)) := by
    rw [aggregateType_map_ts]
    exact List.sorted_insertionSort _ _
  rcases hL : (aggregateType (processRows rows) btype).map (fun p => p.ts) with _ | ⟨t0, rest⟩
  · exfalso
    apply h
    simp [relTimes, hL]
  · rw [hL] at hsor
    have hrel : relTimes (processRows rows) btype = (t0 :: rest).map (fun t => t - t0) := by
      simp [relTimes, hL]
    constructor
    · rw [hrel]
      exact hsor.map _ (fun a b hab => by simpa using sub_le_sub_right hab t0)
    · have h0 : (relTimes (processRows rows) btype).head h =
          ((t0 :: rest).map (fun t => t - t0)).head (by simp) := by
        congr 1
      rw [h0]
      simp

/-- C8: every (type, timestamp) group that reaches the aggregation loop holds
at least one sample, so each latency-mean computation divides by a strictly
positive count, and the four per-group metric lists have equal length. -/
theorem C8_group_lengths (rows : List Row) (btype : String) (ts : ℚ)
    (hts : ts ∈ (processRows rows).tsKeys btype) :
    0 < ((processRows rows).groups btype ts).avg_lat.length ∧
    ((processRows rows).groups btype ts).avg_lat.length =
      ((processRows rows).groups btype ts).max_lat.length ∧
    ((processRows rows).groups btype ts).avg_lat.length =
      ((processRows rows).groups btype ts).p99_lat.length ∧
    ((processRows rows).groups btype ts).avg_lat.length =
      ((processRows rows).groups btype ts).throughput.length := by
  rcases (mem_tsKeys rows btype ts).1 hts with ⟨r, hr, hacc, hbt, hgt⟩
  have hb : btype ∈ acceptedTypes := hbt ▸ hacc
  rw [groups_processRows rows btype ts hb]
  refine ⟨?_, by simp, by simp, by simp⟩
  simp only [List.length_map]
  have hmem : r ∈ groupRows rows btype ts := by
    rw [groupRows, List.mem_filter]
    exact ⟨hr, by simp [hbt, hgt]⟩
  exact List.length_pos.mpr (List.ne_nil_of_mem hmem)

/-- Witness for C1 at the two example rows of the spec: one point with
avg_lat = 15 ms and throughput = 150. -/
theorem C1_witness :
    ∃ p ∈ aggregateType (processRows [exRow1, exRow2]) "READ",
      p.ts = 123 / 1000 ∧ p.avg_lat = 15 ∧ p.max_lat = 20 ∧
      p.p99_lat = 15 ∧ p.throughput = 150 := by
  obtain ⟨p, hp, h0, h1, h2, h3, h4⟩ :=
    C1_group_mean_sum [exRow1, exRow2] exRow1 exRow2 (by simp) (by simp)
      (by simp [exRow1, acceptedTypes]) rfl rfl
  have hgr : groupRows [exRow1, exRow2] exRow1.bench_type exRow1.group_start_time =
      [exRow1, exRow2] := by
    simp [groupRows, exRow1, exRow2]
  rw [hgr] at h1 h2 h3 h4
  refine ⟨p, hp, h0, ?_, ?_, ?_, ?_⟩
  · rw [h1]; norm_num [exRow1, exRow2]
  · rw [h2]; norm_num [exRow1, exRow2]
  · rw [h3]; norm_num [exRow1, exRow2]
  · rw [h4]; norm_num [exRow1, exRow2]

/-- Witness for C5 at a one-row file. -/
theorem C5_witness :
    ∃ h : relTimes (processRows [exRow1]) "READ" ≠ [],
      List.Sorted (· ≤ ·) (relTimes (processRows [exRow1]) "READ") ∧
      (relTimes (processRows [exRow1]) "READ").head h = 0 := by
  have hne : relTimes (processRows [exRow1]) "READ" ≠ [] := by decide
  exact ⟨hne, C5_relative_times [exRow1] "READ" hne⟩

/-- Witness for C8 at a one-row file. -/
theorem C8_witness :
    0 < ((processRows [exRow1]).groups "READ" (123 / 1000)).avg_lat.length ∧
    ((processRows [exRow1]).groups "READ" (123 / 1000)).avg_lat.length =
      ((processRows [exRow1]).groups "READ" (123 / 1000)).max_lat.length ∧
    ((processRows [exRow1]).groups "READ" (123 / 1000)).avg_lat.length =
      ((processRows [exRow1]).groups "READ" (123 / 1000)).p99_lat.length ∧
    ((processRows [exRow1]).groups "READ" (123 / 1000)).avg_lat.length =
      ((processRows [exRow1]).groups "READ" (123 / 1000)).throughput.length :=
  C8_group_lengths [exRow1] "READ" (123 / 1000)
    ((mem_tsKeys [exRow1] "READ" (123 / 1000)).2
      ⟨exRow1, by simp, by simp [exRow1, acceptedTypes], rfl, rfl⟩)

/-- C4: the number of images written by Plotter A equals the number of
distinct accepted operation types present among the rows, which is at most
2; and a row of an excluded operation type is discarded: removing it from
the input changes nothing in the run. -/
theorem C4_image_count (path : String) (rows : List Row) :
    (runA path rows).images.length = (distinctAccepted rows).card ∧
    (distinctAccepted rows).card ≤ 2 ∧
    ∀ l1 r l2, rows = l1 ++ r :: l2 → r.bench_type ∉ acceptedTypes →
      processRows rows = processRows (l1 ++ l2) ∧ runA path rows = runA path (l1 ++ l2) := by
  have hset : ∀ b, b ∈ (processRows rows).typeKeys ↔ b ∈ distinctAccepted rows := by
    intro b
    rw [mem_typeKeys, distinctAccepted, List.mem_toFinset, List.mem_map]
    constructor
    · rintro ⟨r, hr, hacc, hbt⟩
      exact ⟨r, List.mem_filter.2 ⟨hr, by simpa using hacc⟩, hbt⟩
    · rintro ⟨r, hr, hbt⟩
      have hf := List.mem_filter.1 hr
      exact ⟨r, hf.1, by simpa using hf.2, hbt⟩
  refine ⟨?_, ?_, ?_⟩
  · by_cases hnil : (processRows rows).typeKeys = []
    · have himg : (runA path rows).images = [] := by
        simp only [runA]
        rw [if_pos hnil]
      have hcard : (distinctAccepted rows).card = 0 := by
        rw [Finset.card_eq_zero, Finset.eq_empty_iff_forall_not_mem]
        intro b hb
        have := (hset b).2 hb
        rw [hnil] at this
        exact List.not_mem_nil _ this
      rw [himg, hcard]
      rfl
    · have hcard : (processRows rows).typeKeys.length = (distinctAccepted rows).card := by
        rw [← List.toFinset_card_of_nodup (typeKeys_nodup rows)]
        congr 1
        ext b
        rw [List.mem_toFinset]
        exact hset b
      have himg : (runA path rows).images =
          ((processRows rows).typeKeys.insertionSort (· ≤ ·)).filterMap (fun btype =>
            if (processRows rows).tsKeys btype = [] then none
            else some (pyReplace path ".dat" ("_" ++ btype ++ "_metrics.png"))) := by
        simp only [runA]
        rw [if_neg hnil]
      have hall : ∀ l : List String, (∀ b ∈ l, (processRows rows).tsKeys b ≠ []) →
          (l.filterMap (fun btype =>
            if (processRows rows).tsKeys btype = [] then none
            else some (pyReplace path ".dat" ("_" ++ btype ++ "_metrics.png")))).length =
            l.length := by
        intro l
        induction l with
        | nil => intro _; rfl
        | cons b bs ih =>
          intro hl
          rw [List.filterMap_cons]
          rw [if_neg (hl b (List.mem_cons_self b bs))]
          simp only [List.length_cons]
          rw [ih (fun x hx => hl x (List.mem_cons_of_mem b hx))]
      rw [himg, hall _ (fun b hb => tsKeys_ne_nil_of_mem_typeKeys rows b
          ((List.perm_insertionSort _ _).mem_iff.1 hb))]
      rw [(List.perm_insertionSort _ _).length_eq]
      exact hcard
  · have hsub : distinctAccepted rows ⊆ ({"READ", "WRITE"} : Finset String) := by
      intro b hb
      rw [distinctAccepted, List.mem_toFinset, List.mem_map] at hb
      rcases hb with ⟨r, hr, hbt⟩
      have hf := (List.mem_filter.1 hr).2
      simp only [decide_eq_true_eq] at hf
      subst hbt
      simpa [acceptedTypes] using hf
    exact le_trans (Finset.card_le_card hsub) (by simp)
  · intro l1 r l2 hsplit hnacc
    subst hsplit
    have hps : processRows (l1 ++ r :: l2) = processRows (l1 ++ l2) := by
      rw [processRows, processRows, List.foldl_append, List.foldl_append, List.foldl_cons,
        step_not_accepted _ r hnacc]
    refine ⟨hps, ?_⟩
    unfold runA
    rw [hps]

/-- Witness for C4: two accepted types and a discarded SETUP row. -/
theorem C4_witness :
    (runA "summary.dat" [exRow1, exWriteRow, exOtherRow]).images.length =
      (distinctAccepted [exRow1, exWriteRow, exOtherRow]).card ∧
    (distinctAccepted [exRow1, exWriteRow, exOtherRow]).card ≤ 2 ∧
    processRows [exRow1, exWriteRow, exOtherRow] = processRows [exRow1, exWriteRow] ∧
    runA "summary.dat" [exRow1, exWriteRow, exOtherRow] =
      runA "summary.dat" [exRow1, exWriteRow] := by
  obtain ⟨h1, h2, h3⟩ := C4_image_count "summary.dat" [exRow1, exWriteRow, exOtherRow]
  obtain ⟨h4, h5⟩ := h3 [exRow1, exWriteRow] exOtherRow [] rfl (by decide)
  exact ⟨h1, h2, h4, h5⟩

/-- C6: a file with no rows of an accepted operation type makes Plotter A
print the no-data message, exit with status 0, and write no images. -/
theorem C6_no_data (csv_file : String) (rows : List Row)
    (h : ∀ r ∈ rows, r.bench_type ∉ acceptedTypes) :
    runA csv_file rows =
      { exitCode := 0, printed := ["No READ/WRITE test data found"], images := [] } := by
  have hk : (processRows rows).typeKeys = [] := by
    rw [List.eq_nil_iff_forall_not_mem]
    intro b hb
    rcases (mem_typeKeys rows b).1 hb with ⟨r, hr, hacc, _⟩
    exact h r hr hacc
  simp only [runA]
  rw [if_pos hk]

/-- Witness for C6 at a file holding only a SETUP row. -/
theorem C6_witness :
    runA "summary.dat" [exOtherRow] =
      { exitCode := 0, printed := ["No READ/WRITE test data found"], images := [] } :=
  C6_no_data "summary.dat" [exOtherRow] (by decide)

/-- C3 counterexample: the image file name is not obtained by replacing the
extension of the input path.  For the input path "summary.csv" with READ
data, replacing the extension would give "summary_READ_metrics.png", but the
run writes "summary.csv" itself (str.replace of the substring ".dat" finds
nothing to replace). -/
theorem C3_counterexample :
    (runA "summary.csv" [exRow1]).images = ["summary.csv"] ∧
    "summary.csv" ≠ "summary" ++ "_READ_metrics.png" := by
  constructor
  · decide
  · decide

/-- C3 amended: for every accepted operation type present in the data, the
image written for that type has the name obtained from the input path by
replacing every occurrence of the substring ".dat" with an underscore, the
operation type, and "_metrics.png" (which coincides with replacing the
extension exactly when the path ends in ".dat" and contains ".dat" once),
and that path is printed after the prefix "Saved: ". -/
theorem C3_image_names (path : String) (rows : List Row) (btype : String)
    (hb : btype ∈ (processRows rows).typeKeys) :
    pyReplace path ".dat" ("_" ++ btype ++ "_metrics.png") ∈ (runA path rows).images ∧
    ("Saved: " ++ pyReplace path ".dat" ("_" ++ btype ++ "_metrics.png"))
      ∈ (runA path rows).printed := by
  have hne : (processRows rows).typeKeys ≠ [] := by
    intro h0
    rw [h0] at hb
    exact List.not_mem_nil _ hb
  have hmem : btype ∈ ((processRows rows).typeKeys).insertionSort (· ≤ ·) :=
    (List.perm_insertionSort _ _).mem_iff.2 hb
  have hts := tsKeys_ne_nil_of_mem_typeKeys rows btype hb
  simp only [runA]
  rw [if_neg hne]
  constructor
  · exact List.mem_filterMap.2 ⟨btype, hmem, by rw [if_neg hts]⟩
  · exact List.mem_map_of_mem _ (List.mem_filterMap.2 ⟨btype, hmem, by rw [if_neg hts]⟩)

/-- Witness for the amended C3 at a one-row READ file named "bench.dat". -/
theorem C3_witness :
    pyReplace "bench.dat" ".dat" ("_" ++ "READ" ++ "_metrics.png")
      ∈ (runA "bench.dat" [exRow1]).images ∧
    ("Saved: " ++ pyReplace "bench.dat" ".dat" ("_" ++ "READ" ++ "_metrics.png"))
      ∈ (runA "bench.dat" [exRow1]).printed :=
  C3_image_names "bench.dat" [exRow1] "READ"
    ((mem_typeKeys [exRow1] "READ").2
      ⟨exRow1, List.mem_singleton_self _, by simp [exRow1, acceptedTypes], rfl⟩)

/-- C10: the aggregation of Plotter A is order-insensitive under exact
arithmetic: permuting the input rows leaves every aggregated per-type series
unchanged, because each group point depends only on the multiset of samples
of its group. -/
theorem C10_perm_invariant (rows1 rows2 : List Row) (hperm : rows1.Perm rows2)
    (btype : String) :
    aggregateType (processRows rows1) btype = aggregateType (processRows rows2) btype := by
  by_cases hb : btype ∈ acceptedTypes
  · have hmemiff : ∀ t, t ∈ (processRows rows1).tsKeys btype ↔
        t ∈ (processRows rows2).tsKeys btype := by
      intro t
      rw [mem_tsKeys, mem_tsKeys]
      constructor
      · rintro ⟨r, hr, hh⟩
        exact ⟨r, hperm.mem_iff.1 hr, hh⟩
      · rintro ⟨r, hr, hh⟩
        exact ⟨r, hperm.mem_iff.2 hr, hh⟩
    have hp : ((processRows rows1).tsKeys btype).Perm ((processRows rows2).tsKeys btype) :=
      (List.perm_ext_iff_of_nodup (tsKeys_nodup rows1 btype) (tsKeys_nodup rows2 btype)).2
        hmemiff
    have hkeys : ((processRows rows1).tsKeys btype).insertionSort (· ≤ ·) =
        ((processRows rows2).tsKeys btype).insertionSort (· ≤ ·) :=
      List.eq_of_perm_of_sorted
        (((List.perm_insertionSort _ _).trans hp).trans (List.perm_insertionSort _ _).symm)
        (List.sorted_insertionSort _ _) (List.sorted_insertionSort _ _)
    rw [aggregateType, aggregateType, hkeys]
    apply List.map_congr_left
    intro t ht
    have hfil : (groupRows rows1 btype t).Perm (groupRows rows2 btype t) := hperm.filter _
    rw [groups_processRows rows1 btype t hb, groups_processRows rows2 btype t hb]
    simp only [List.length_map]
    rw [(hfil.map (fun r => r.average_latency / 1000000)).sum_eq,
      (hfil.map (fun r => r.max_latency / 1000000)).sum_eq,
      (hfil.map (fun r => r.p99_latency / 1000000)).sum_eq,
      (hfil.map (fun r => r.throughput)).sum_eq, hfil.length_eq]
  · have h1 := tsKeys_eq_nil_of_not_accepted rows1 btype hb
    have h2 := tsKeys_eq_nil_of_not_accepted rows2 btype hb
    rw [aggregateType, aggregateType, h1, h2]
    simp

/-- Witness for C10: swapping the two example rows leaves the READ series
unchanged. -/
theorem C10_witness :
    aggregateType (processRows [exRow1, exRow2]) "READ" =
      aggregateType (processRows [exRow2, exRow1]) "READ" :=
  C10_perm_invariant [exRow1, exRow2] [exRow2, exRow1] (List.Perm.swap exRow2 exRow1 [])
    "READ"

/-! ### String lemmas for the timestamp normalization -/

lemma replaceZ_of_not_mem (l : List Char) (h : 'Z' ∉ l) : replaceZ l = l := by
  induction l with
  | nil => rfl
  | cons c rest ih =>
    have hc : c ≠ 'Z' := fun hc => h (hc ▸ List.mem_cons_self c rest)
    simp only [replaceZ, if_neg hc]
    rw [ih (fun hm => h (List.mem_cons_of_mem c hm))]

lemma replaceZ_append (l1 l2 : List Char) :
    replaceZ (l1 ++ l2) = replaceZ l1 ++ replaceZ l2 := by
  induction l1 with
  | nil => rfl
  | cons c rest ih =>
    by_cases hc : c = 'Z' <;> simp [List.cons_append, replaceZ, hc, ih]

lemma splitOnChar_of_not_mem (c : Char) (l : List Char) (h : c ∉ l) :
    splitOnChar c l = [l] := by
  induction l with
  | nil => rfl
  | cons a rest ih =>
    have ha : a ≠ c := fun hc => h (hc ▸ List.mem_cons_self a rest)
    simp only [splitOnChar, if_neg ha, ih (fun hm => h (List.mem_cons_of_mem a hm))]

lemma splitOnChar_append (c : Char) (l1 l2 : List Char) (h : c ∉ l1) :
    splitOnChar c (l1 ++ c :: l2) = l1 :: splitOnChar c l2 := by
  induction l1 with
  | nil => simp [splitOnChar]
  | cons a rest ih =>
    have ha : a ≠ c := fun hc => h (hc ▸ List.mem_cons_self a rest)
    have ih' := ih (fun hm => h (List.mem_cons_of_mem a hm))
    simp only [List.cons_append, splitOnChar, if_neg ha, List.append_eq, ih']

lemma splitPair_eq (c : Char) (l1 l2 : List Char) (h1 : c ∉ l1) (h2 : c ∉ l2) :
    splitPair c (l1 ++ c :: l2) = some (l1, l2) := by
  rw [splitPair, splitOnChar_append c l1 l2 h1, splitOnChar_of_not_mem c l2 h2]

lemma pad6_length (m : List Char) : (pad6 m).length = 6 := by
  rw [pad6]
  simp only [List.length_append, List.length_replicate, List.length_take]
  omega

lemma mem_pad6 (m : List Char) (x : Char) (h : x ∈ pad6 m) : x ∈ m ∨ x = '0' := by
  rw [pad6] at h
  rcases List.mem_append.1 h with h | h
  · exact Or.inl (List.take_subset 6 m h)
  · exact Or.inr (List.eq_of_mem_replicate h)

lemma takeWhile_middle (p : Char → Bool) (l1 : List Char) (a : Char) (l2 : List Char)
    (h1 : ∀ x ∈ l1, p x = true) (h2 : p a = false) :
    (l1 ++ a :: l2).takeWhile p = l1 := by
  induction l1 with
  | nil => simp [List.takeWhile_cons, h2]
  | cons b rest ih =>
    have ih' := ih (fun x hx => h1 x (List.mem_cons_of_mem b hx))
    simp [List.cons_append, List.takeWhile_cons, h1 b (List.mem_cons_self b rest), ih']

/-! ### C2 -/

/-- C2 counterexample: a timestamp whose integer portion and time-zone
portion are valid but whose offset is negative is passed to the date-time
constructor unchanged, with its 8-digit fractional field not normalized to 6
digits (the normalization block only fires when the string contains a plus
sign). -/
theorem C2_counterexample :
    normalize_ts ("2025-01-01T00:00:00.12345678-05:00".toList) =
      some ("2025-01-01T00:00:00.12345678-05:00".toList) ∧
    fracWidth ("2025-01-01T00:00:00.12345678-05:00".toList) = some 8 := by
  constructor
  · decide
  · decide

/-- C2 amended: for every timestamp string made of a valid integer portion,
a fractional field of any width, and a time-zone written as a trailing Z or
as an explicit positive offset, the normalization rewrites the fractional
field to exactly 6 characters (right-padded with zeros if shorter, truncated
if longer) before the date-time value is constructed, and the unpacking
succeeds; a negative explicit offset skips the normalization (see the
counterexample). -/
theorem C2_normalization (base frac tz : List Char)
    (hbase : '.' ∉ base ∧ '+' ∉ base ∧ 'Z' ∉ base)
    (hfrac : '.' ∉ frac ∧ '+' ∉ frac ∧ '-' ∉ frac ∧ 'Z' ∉ frac)
    (htz : '.' ∉ tz ∧ '+' ∉ tz ∧ 'Z' ∉ tz) :
    normalize_ts (base ++ '.' :: (frac ++ ['Z'])) =
      some (base ++ '.' :: (pad6 frac ++ '+' :: ('0' :: '0' :: ':' :: '0' :: '0' :: []))) ∧
    normalize_ts (base ++ '.' :: (frac ++ '+' :: tz)) =
      some (base ++ '.' :: (pad6 frac ++ '+' :: tz)) ∧
    (pad6 frac).length = 6 ∧
    fracWidth (base ++ '.' :: (pad6 frac ++ '+' :: tz)) = some 6 := by
  obtain ⟨hb1, hb2, hb3⟩ := hbase
  obtain ⟨hf1, hf2, hf3, hf4⟩ := hfrac
  obtain ⟨ht1, ht2, ht3⟩ := htz
  refine ⟨?_, ?_, pad6_length frac, ?_⟩
  · have hZ : replaceZ (base ++ '.' :: (frac ++ ['Z'])) =
        base ++ '.' :: (frac ++ '+' :: ('0' :: '0' :: ':' :: '0' :: '0' :: [])) := by
      rw [replaceZ_append, replaceZ_of_not_mem base hb3]
      congr 1
      have hdot : ('.' : Char) ≠ 'Z' := by decide
      simp only [replaceZ, if_neg hdot]
      rw [replaceZ_append, replaceZ_of_not_mem frac hf4]
      rfl
    have hdotmem : '.' ∈ base ++ '.' :: (frac ++ '+' :: ('0' :: '0' :: ':' :: '0' :: '0' :: [])) :=
      List.mem_append_right base (List.mem_cons_self _ _)
    have hplusmem : '+' ∈ base ++ '.' :: (frac ++ '+' :: ('0' :: '0' :: ':' :: '0' :: '0' :: [])) :=
      List.mem_append_right base
        (List.mem_cons_of_mem _ (List.mem_append_right frac (List.mem_cons_self _ _)))
    have hdr : '.' ∉ frac ++ '+' :: ('0' :: '0' :: ':' :: '0' :: '0' :: []) := by
      intro hm
      rcases List.mem_append.1 hm with hm | hm
      · exact hf1 hm
      · exact absurd hm (by decide)
    have h00 : '+' ∉ ('0' :: '0' :: ':' :: '0' :: '0' :: ([] : List Char)) := by decide
    have hcond : ('.' ∈ base ++ '.' :: (frac ++ '+' :: ('0' :: '0' :: ':' :: '0' :: '0' :: []))) ∧
        ('+' ∈ base ++ '.' :: (frac ++ '+' :: ('0' :: '0' :: ':' :: '0' :: '0' :: []))) :=
      ⟨hdotmem, hplusmem⟩
    simp only [normalize_ts, hZ]
    rw [if_pos hcond]
    rw [splitPair_eq '.' base _ hb1 hdr, Option.some_bind]
    rw [splitPair_eq '+' frac _ hf2 h00]
    rfl
  · have hnoZ : replaceZ (base ++ '.' :: (frac ++ '+' :: tz)) =
        base ++ '.' :: (frac ++ '+' :: tz) := by
      apply replaceZ_of_not_mem
      intro hm
      rcases List.mem_append.1 hm with hm | hm
      · exact hb3 hm
      · rcases List.mem_cons.1 hm with hm | hm
        · exact absurd hm (by decide)
        · rcases List.mem_append.1 hm with hm | hm
          · exact hf4 hm
          · rcases List.mem_cons.1 hm with hm | hm
            · exact absurd hm (by decide)
            · exact ht3 hm
    have hdotmem : '.' ∈ base ++ '.' :: (frac ++ '+' :: tz) :=
      List.mem_append_right base (List.mem_cons_self _ _)
    have hplusmem : '+' ∈ base ++ '.' :: (frac ++ '+' :: tz) :=
      List.mem_append_right base
        (List.mem_cons_of_mem _ (List.mem_append_right frac (List.mem_cons_self _ _)))
    have hdr : '.' ∉ frac ++ '+' :: tz := by
      intro hm
      rcases List.mem_append.1 hm with hm | hm
      · exact hf1 hm
      · rcases List.mem_cons.1 hm with hm | hm
        · exact absurd hm (by decide)
        · exact ht1 hm
    have hcond : ('.' ∈ base ++ '.' :: (frac ++ '+' :: tz)) ∧
        ('+' ∈ base ++ '.' :: (frac ++ '+' :: tz)) := ⟨hdotmem, hplusmem⟩
    simp only [normalize_ts, hnoZ]
    rw [if_pos hcond]
    rw [splitPair_eq '.' base _ hb1 hdr, Option.some_bind]
    rw [splitPair_eq '+' frac _ hf2 ht2]
    rfl
  · have hdp : '.' ∉ pad6 frac ++ '+' :: tz := by
      intro hm
      rcases List.mem_append.1 hm with hm | hm
      · rcases mem_pad6 frac '.' hm with hm | hm
        · exact hf1 hm
        · exact absurd hm (by decide)
      · rcases List.mem_cons.1 hm with hm | hm
        · exact absurd hm (by decide)
        · exact ht1 hm
    rw [fracWidth, splitOnChar_append '.' base _ hb1, splitOnChar_of_not_mem '.' _ hdp]
    have htw : ((pad6 frac ++ '+' :: tz).takeWhile
        (fun c => decide (c ≠ '+' ∧ c ≠ '-'))) = pad6 frac := by
      apply takeWhile_middle
      · intro x hx
        rcases mem_pad6 frac x hx with hm | hm
        · simp only [decide_eq_true_eq]
          exact ⟨fun hc => hf2 (hc ▸ hm), fun hc => hf3 (hc ▸ hm)⟩
        · subst hm
          decide
      · decide
    simp only [htw, pad6_length]

/-- Witness for the amended C2: an 8-digit fractional field is truncated to
6 digits, both in the Z form and in the positive-offset form. -/
theorem C2_witness :
    normalize_ts ("2025-01-01T00:00:00.12345678+05:00".toList) =
      some ("2025-01-01T00:00:00.123456+05:00".toList) ∧
    normalize_ts ("2025-01-01T00:00:00.12345678Z".toList) =
      some ("2025-01-01T00:00:00.123456+00:00".toList) := by
  obtain ⟨hZ, hoff, hlen, hw⟩ :=
    C2_normalization ("2025-01-01T00:00:00".toList) ("12345678".toList) ("05:00".toList)
      ⟨by decide, by decide, by decide⟩ ⟨by decide, by decide, by decide, by decide⟩
      ⟨by decide, by decide, by decide⟩
  constructor
  · have heq : ("2025-01-01T00:00:00.12345678+05:00".toList) =
        "2025-01-01T00:00:00".toList ++ '.' :: ("12345678".toList ++ '+' :: "05:00".toList) := by
      decide
    rw [heq, hoff]
    decide
  · have heq : ("2025-01-01T00:00:00.12345678Z".toList) =
        "2025-01-01T00:00:00".toList ++ '.' :: ("12345678".toList ++ ['Z']) := by
      decide
    rw [heq, hZ]
    decide

/-! ### Plotter B lemmas and claims -/

lemma minQ_le_of_mem (l : List ℚ) (a : ℚ) (h : a ∈ l) : minQ l ≤ a := by
  induction l with
  | nil => exact absurd h (List.not_mem_nil a)
  | cons b rest ih =>
    rcases rest with _ | ⟨c, rest2⟩
    · rcases List.mem_cons.1 h with rfl | h'
      · exact le_refl _
      · exact absurd h' (List.not_mem_nil a)
    · simp only [minQ]
      rcases List.mem_cons.1 h with rfl | h'
      · exact min_le_left _ _
      · exact le_trans (min_le_right _ _) (ih h')

lemma minQ_mem (l : List ℚ) (h : l ≠ []) : minQ l ∈ l := by
  induction l with
  | nil => exact absurd rfl h
  | cons b rest ih =>
    rcases rest with _ | ⟨c, rest2⟩
    · simp [minQ]
    · simp only [minQ]
      rcases le_total b (minQ (c :: rest2)) with hle | hle
      · rw [min_eq_left hle]
        exact List.mem_cons_self _ _
      · rw [min_eq_right hle]
        exact List.mem_cons_of_mem _ (ih (by simp))

lemma maxQ_map_sub (l : List ℚ) (c : ℚ) (h : l ≠ []) :
    maxQ (l.map (fun x => x - c)) = maxQ l - c := by
  induction l with
  | nil => exact absurd rfl h
  | cons b rest ih =>
    rcases rest with _ | ⟨d, rest2⟩
    · simp [maxQ]
    · have ih' := ih (by simp)
      rw [List.map_cons] at ih'
      simp only [List.map_cons, maxQ]
      rw [ih']
      exact max_sub_sub_right b (maxQ (d :: rest2)) c

/-- C7: start_time is the earliest timestamp of the metrics file, every row
has time_seconds equal to its timestamp minus start_time, and the printed
total test duration line carries the maximum time_seconds value formatted
to one decimal place. -/
theorem C7_duration (pfx : String) (metrics : MetricsFrame) (phases : List PhaseRow)
    (hne : metrics.rows ≠ []) :
    (∀ r ∈ metrics.rows, startTimeB metrics ≤ r.timestamp) ∧
    startTimeB metrics ∈ metrics.rows.map (fun r => r.timestamp) ∧
    timeSecondsB metrics = metrics.rows.map (fun r => r.timestamp - startTimeB metrics) ∧
    maxQ (timeSecondsB metrics) =
      maxQ (metrics.rows.map (fun r => r.timestamp)) - startTimeB metrics ∧
    ("Total test duration: " ++ fmtFixed 1 (maxQ (timeSecondsB metrics)) ++ " seconds")
      ∈ (runB pfx metrics phases).printed := by
  have hmne : metrics.rows.map (fun r => r.timestamp) ≠ [] := by
    simpa using hne
  refine ⟨?_, ?_, rfl, ?_, ?_⟩
  · intro r hr
    exact minQ_le_of_mem _ _ (List.mem_map_of_mem _ hr)
  · exact minQ_mem _ hmne
  · have h2 : timeSecondsB metrics =
        (metrics.rows.map (fun r => r.timestamp)).map (fun t => t - startTimeB metrics) := by
      rw [timeSecondsB, List.map_map]
      rfl
    rw [h2, maxQ_map_sub _ _ hmne]
  · simp only [runB]
    refine List.mem_append_left _ ?_
    simp

/-- Witness for C7: a metrics file spanning 60 seconds yields the line
"Total test duration: 60.0 seconds". -/
theorem C7_witness :
    startTimeB exMetrics = 100 ∧
    timeSecondsB exMetrics = [0, 60] ∧
    "Total test duration: 60.0 seconds" ∈ (runB "out-" exMetrics []).printed := by
  obtain ⟨hle, hmem, heq, hmax, hprint⟩ := C7_duration "out-" exMetrics [] (by decide)
  have hstart : startTimeB exMetrics = 100 := by
    norm_num [startTimeB, exMetrics, minQ]
  have hts : timeSecondsB exMetrics = [0, 60] := by
    rw [heq, hstart]
    norm_num [exMetrics]
  have hmax60 : maxQ (timeSecondsB exMetrics) = 60 := by
    rw [hts]
    norm_num [maxQ]
  have hfmt : fmtFixed 1 (60 : ℚ) = "60.0" := by
    have h600 : (60 : ℚ) * (10 : ℚ) ^ (1 : ℕ) = ((600 : ℤ) : ℚ) := by norm_num
    unfold fmtFixed
    rw [h600, round_intCast]
    decide
  rw [hmax60, hfmt] at hprint
  have hstr : "Total test duration: " ++ "60.0" ++ " seconds" =
      "Total test duration: 60.0 seconds" := by decide
  rw [hstr] at hprint
  exact ⟨hstart, hts, hprint⟩

/-- C9: a phase-transitions file with zero data rows yields no vertical
markers and no shaded intervals, but the visualization image is still
written and the textual summary still printed. -/
theorem C9_empty_phases (pfx : String) (metrics : MetricsFrame)
    (hne : metrics.rows ≠ []) :
    (runB pfx metrics []).markers = [] ∧
    (runB pfx metrics []).shaded = [] ∧
    (runB pfx metrics []).imageWritten = true ∧
    (runB pfx metrics []).outPath = pfx ++ "visualization.png" ∧
    ("Visualization written to " ++ (pfx ++ "visualization.png"))
      ∈ (runB pfx metrics []).printed ∧
    ("Total test duration: " ++ fmtFixed 1 (maxQ (timeSecondsB metrics)) ++ " seconds")
      ∈ (runB pfx metrics []).printed := by
  simp [runB]

/-- Witness for C9 at the example metrics frame. -/
theorem C9_witness :
    (runB "out-" exMetrics []).markers = [] ∧
    (runB "out-" exMetrics []).shaded = [] ∧
    (runB "out-" exMetrics []).imageWritten = true ∧
    (runB "out-" exMetrics []).outPath = "out-" ++ "visualization.png" ∧
    ("Visualization written to " ++ ("out-" ++ "visualization.png"))
      ∈ (runB "out-" exMetrics []).printed ∧
    ("Total test duration: " ++ fmtFixed 1 (maxQ (timeSecondsB exMetrics)) ++ " seconds")
      ∈ (runB "out-" exMetrics []).printed :=
  C9_empty_phases "out-" exMetrics (by decide)

end ZkBench
